import Mathlib

/-!
Verification development for the ralph orchestration engine.

The sequential scheduler is embedded from src/runner.rs (`Runner::run_sequential`,
`Runner::find_next_story`, `Runner::save_checkpoint`, `Runner::clear_checkpoint`,
`Runner::error_to_pause_reason`, `Runner::new`).  The parallel execution state is
embedded from src/parallel/scheduler.rs (`ParallelExecutionState`,
`ParallelRunnerConfig`).  The checkpoint module (`crate::checkpoint`), the
executor (`crate::mcp::tools::executor`), the PRD loader
(`crate::mcp::tools::load_prd`) and the parallel admission loop
(`ParallelRunner::run`) are not among the provided sources; where a claim needs
them they are modelled from the spec, and each such definition says so in its
doc comment.

External effects (file reads of prd.json mutated by the agent between rounds,
the executor invocation, git status) are modelled by an environment script: the
initial PRD contents, one `ExecStep` per executor invocation giving the
executor outcome and the PRD contents observed on the next reload, a fixed
uncommitted-files snapshot, and a detected-agent option.  Checkpoint
persistence is a single in-memory slot (`Option Checkpoint`); I/O errors of the
store are logged-and-ignored by the runner, so a always-succeeding slot is the
faithful model of the runner's visible behaviour.  The run state additionally
carries an instrumentation trace (`events`, `increments`) recording, in order,
the persisted checkpoint writes/clears, executor dispatches, and per-item
outcome displays; the trace has no influence on control flow.
-/

/-- Work item as read from the PRD
(`PrdUserStory` of src/mcp/tools/load_prd.rs, in the fields used by
src/runner.rs: id, title, numeric priority — lower is more urgent — and the
pass flag). -/
structure PrdUserStory where
  id : String
  title : String
  priority : Nat
  passes : Bool
deriving Repr, DecidableEq

/-- Modelled from the spec: `PauseReason` of the checkpoint module
(src/checkpoint.rs, absent from the provided sources): "tagged reason the run
is paused — user-requested stop, timeout, an iteration-limit exhaustion, or an
arbitrary error message". -/
inductive PauseReason where
  | userRequested
  | timeout
  | iterationLimit
  | error (msg : String)
deriving Repr, DecidableEq

/-- Modelled from the spec: `StoryCheckpoint` of the checkpoint module (absent
from the provided sources): item identifier, current iteration, max
iterations. -/
structure StoryCheckpoint where
  story_id : String
  iteration : Nat
  max_iterations : Nat
deriving Repr, DecidableEq

/-- Modelled from the spec: `Checkpoint` of the checkpoint module (absent from
the provided sources): optional story checkpoint, pause reason, snapshot of
uncommitted files.  The implicit creation timestamp is not modelled. -/
structure Checkpoint where
  story_checkpoint : Option StoryCheckpoint
  pause_reason : PauseReason
  uncommitted_files : List String
deriving Repr, DecidableEq

/-- Modelled from the spec: `ExecutorError` of the executor module (absent from
the provided sources).  src/runner.rs matches on `Timeout(_)` and `Cancelled`
and treats every other variant uniformly via `to_string()`, so the remaining
variants are collapsed into `other` carrying their rendered text. -/
inductive ExecutorError where
  | timeout (msg : String)
  | cancelled
  | other (msg : String)
deriving Repr, DecidableEq

/-- Modelled from the spec: the `to_string()` rendering of an executor error,
used by src/runner.rs for the generic error pause reason and the failure
display. -/
def ExecutorError.toMessage : ExecutorError → String
  | .timeout m => m
  | .cancelled => "Cancelled"
  | .other m => m

/-- Modelled from the spec: the executor's structured result (absent from the
provided sources): success flag, iterations actually consumed, optional commit
reference, optional error text. -/
structure ExecutionResult where
  success : Bool
  iterations_used : Nat
  commit_hash : Option String
  error : Option String
deriving Repr, DecidableEq

/-- Outcome of one executor invocation in the environment script. -/
inductive StepOutcome where
  | ok (r : ExecutionResult)
  | err (e : ExecutorError)
deriving Repr, DecidableEq

/-- One environment step: the executor outcome for the dispatched item, and
the PRD contents observed at the next reload (the agent mutates prd.json). -/
structure ExecStep where
  outcome : StepOutcome
  nextPrd : List PrdUserStory
deriving Repr, DecidableEq

/-- `RunnerConfig` of src/runner.rs, restricted to the fields that influence
the sequential control flow (paths and display options are I/O plumbing). -/
structure RunnerConfig where
  max_iterations_per_story : Nat
  max_total_iterations : Nat
  agent_command : Option String
  no_checkpoint : Bool
deriving Repr, DecidableEq

/-- `RunResult` of src/runner.rs. -/
structure RunResult where
  all_passed : Bool
  stories_passed : Nat
  total_stories : Nat
  total_iterations : Nat
  error : Option String
deriving Repr, DecidableEq

/-- Instrumentation trace events of a sequential run: persisted checkpoint
writes and clears, executor dispatches, and per-item completion/failure
displays, in program order. -/
inductive RunEvent where
  | savedCheckpoint (c : Checkpoint)
  | clearedCheckpoint
  | dispatched (id : String)
  | storyCompleted (id : String)
  | storyFailed (id : String) (msg : String)
deriving Repr, DecidableEq

/-- Mutable state threaded through `run_sequential`: the running iteration
total, the durable checkpoint slot (`none` = no checkpoint on disk), and the
instrumentation trace (`events`, and the per-invocation iteration increments
`increments`), which does not influence control flow. -/
structure SeqState where
  total_iterations : Nat
  slot : Option Checkpoint
  events : List RunEvent
  increments : List Nat
deriving Repr, DecidableEq

/-- `Runner::new` of src/runner.rs, reduced to the checkpoint-manager decision:
with `no_checkpoint` set the runner has no manager; otherwise it has one
exactly when `CheckpointManager::new` succeeds (`managerInitOk`). -/
def runner_has_manager (config : RunnerConfig) (managerInitOk : Bool) : Bool :=
  if config.no_checkpoint then false else managerInitOk

/-- `Runner::save_checkpoint` of src/runner.rs: does nothing without a
manager; otherwise persists a checkpoint built from the story id, iteration,
max iterations, pause reason and the uncommitted-files snapshot (store I/O
errors are logged and ignored). -/
def save_checkpoint (hasManager : Bool) (unc : List String) (story_id : String)
    (iteration : Nat) (max_iterations : Nat) (pause_reason : PauseReason)
    (st : SeqState) : SeqState :=
  if hasManager then
    let c : Checkpoint := ⟨some ⟨story_id, iteration, max_iterations⟩, pause_reason, unc⟩
    { st with slot := some c, events := st.events ++ [RunEvent.savedCheckpoint c] }
  else st

/-- `Runner::clear_checkpoint` of src/runner.rs: does nothing without a
manager; otherwise removes the persisted checkpoint (store I/O errors are
logged and ignored). -/
def clear_checkpoint (hasManager : Bool) (st : SeqState) : SeqState :=
  if hasManager then
    { st with slot := none, events := st.events ++ [RunEvent.clearedCheckpoint] }
  else st

/-- `Runner::error_to_pause_reason` of src/runner.rs. -/
def error_to_pause_reason : ExecutorError → PauseReason
  | .timeout _ => PauseReason.timeout
  | .cancelled => PauseReason.userRequested
  | e => PauseReason.error e.toMessage

/-- Rust `Iterator::min_by_key`: the element with the minimum key; among
equal minima the first element wins. -/
def minByKeyFirst (f : α → Nat) : List α → Option α
  | [] => none
  | x :: xs =>
    match minByKeyFirst f xs with
    | none => some x
    | some y => if f x ≤ f y then some x else some y

/-- `Runner::find_next_story` of src/runner.rs: among the stories with
`passes = false`, the one with the numerically lowest priority (first match on
ties, per `min_by_key`). -/
def find_next_story (stories : List PrdUserStory) : Option PrdUserStory :=
  minByKeyFirst (fun s => s.priority) (stories.filter (fun s => !s.passes))

/-- Count of stories currently passing
(`Runner::count_passing_stories` of src/runner.rs, with the reload supplied by
the model environment). -/
def countPassing (stories : List PrdUserStory) : Nat :=
  (stories.filter (fun s => s.passes)).length

/-- The iteration-cap message of src/runner.rs,
`format!("Max total iterations ({}) reached", n)`. -/
def maxTotalMsg (n : Nat) : String :=
  "Max total iterations (" ++ toString n ++ ") reached"

/-- The running-total increment of one executor invocation, from
src/runner.rs line 304: `iterations_used` of a returned result, 1 on an
executor error. -/
def stepWeight (step : ExecStep) : Nat :=
  match step.outcome with
  | .ok r => r.iterations_used
  | .err _ => 1

/-- The dispatch body of the `Runner::run_sequential` loop (src/runner.rs
lines 274-343) for one selected story: write the pre-dispatch checkpoint,
invoke the executor (whose outcome is `step.outcome`), add the consumed
iterations to the running total, then handle the three outcome classes —
success clears the checkpoint, a reported failure saves a checkpoint carrying
the failure detail, an executor error saves a checkpoint with the classified
pause reason. -/
def dispatchState (cfg : RunnerConfig) (hasManager : Bool) (unc : List String)
    (story : PrdUserStory) (step : ExecStep) (st : SeqState) : SeqState :=
  let st1 := save_checkpoint hasManager unc story.id 1 cfg.max_iterations_per_story
    PauseReason.userRequested st
  let st2 := { st1 with events := st1.events ++ [RunEvent.dispatched story.id] }
  let w := stepWeight step
  let st3 := { st2 with
    total_iterations := st2.total_iterations + w
    increments := st2.increments ++ [w] }
  match step.outcome with
  | .ok r =>
    if r.success then
      let s1 := clear_checkpoint hasManager st3
      { s1 with events := s1.events ++ [RunEvent.storyCompleted story.id] }
    else
      let msg := r.error.getD "Quality gates failed"
      let s1 := save_checkpoint hasManager unc story.id r.iterations_used
        cfg.max_iterations_per_story (PauseReason.error msg) st3
      { s1 with events := s1.events ++ [RunEvent.storyFailed story.id msg] }
  | .err e =>
    let s1 := save_checkpoint hasManager unc story.id 1
      cfg.max_iterations_per_story (error_to_pause_reason e) st3
    { s1 with events := s1.events ++ [RunEvent.storyFailed story.id e.toMessage] }

/-- The main loop of `Runner::run_sequential` (src/runner.rs lines 208-347):
reload the PRD, pick the next story; when none is left clear the checkpoint
and return Done; otherwise enforce the global iteration cap, checkpoint, run
the executor (consuming one script step, see `dispatchState`), and loop on
the reloaded PRD.  Returns `none` when the environment script is exhausted at
a dispatch (the run would go on). -/
def runLoop (cfg : RunnerConfig) (hasManager : Bool) (unc : List String)
    (total_stories : Nat) :
    List ExecStep → List PrdUserStory → SeqState → Option (RunResult × SeqState)
  | script, prd, st =>
    match find_next_story prd with
    | none =>
      let st1 := clear_checkpoint hasManager st
      some (⟨true, total_stories, total_stories, st1.total_iterations, none⟩, st1)
    | some story =>
      if cfg.max_total_iterations > 0 ∧ st.total_iterations ≥ cfg.max_total_iterations then
        let msg := maxTotalMsg cfg.max_total_iterations
        let st1 := save_checkpoint hasManager unc story.id 1 cfg.max_iterations_per_story
          (PauseReason.error msg) st
        some (⟨false, countPassing prd, total_stories, st1.total_iterations, some msg⟩, st1)
      else
        match script with
        | [] => none
        | step :: rest =>
          runLoop cfg hasManager unc total_stories rest step.nextPrd
            (dispatchState cfg hasManager unc story step st)

/-- `Runner::run_sequential` of src/runner.rs: initial PRD load, the
all-already-passing early return, agent detection, then the main loop.
`agentDetected` models `detect_agent()`; `slot0` is the checkpoint on disk at
start; source read errors are outside the model (the environment script always
yields readable PRD contents). -/
def run_sequential (cfg : RunnerConfig) (hasManager : Bool)
    (agentDetected : Option String) (unc : List String)
    (prd0 : List PrdUserStory) (script : List ExecStep)
    (slot0 : Option Checkpoint) : Option (RunResult × SeqState) :=
  let st0 : SeqState := ⟨0, slot0, [], []⟩
  let total_stories := prd0.length
  let passing_count := countPassing prd0
  if passing_count = total_stories then
    some (⟨true, total_stories, total_stories, 0, none⟩, st0)
  else
    match cfg.agent_command.orElse (fun _ => agentDetected) with
    | none =>
      some (⟨false, passing_count, total_stories, 0,
        some "No agent found. Install Claude Code CLI or Amp CLI."⟩, st0)
    | some _agent => runLoop cfg hasManager unc total_stories script prd0 st0

/-- Is a trace event a checkpoint persistence event (write or clear)? -/
def isCkptEvent : RunEvent → Bool
  | RunEvent.savedCheckpoint _ => true
  | RunEvent.clearedCheckpoint => true
  | _ => false

/-- The identifiers of the dispatched-to-executor events of a trace, in
order. -/
def dispatchedIds (evs : List RunEvent) : List String :=
  evs.filterMap (fun e =>
    match e with
    | RunEvent.dispatched id => some id
    | _ => none)

/-- The checkpoint written just before dispatching a story
(src/runner.rs line 296): the story id, iteration 1, the per-story max,
a user-requested pause reason. -/
def dispatchCkpt (id : String) (mi : Nat) (unc : List String) : Checkpoint :=
  ⟨some ⟨id, 1, mi⟩, PauseReason.userRequested, unc⟩

/-- Check of a single trace event against its predecessor: a `dispatched id`
event must directly follow the write of the dispatch checkpoint for `id`;
every other event is unconstrained. -/
def eventOk (mi : Nat) (unc : List String) (prev : Option RunEvent) :
    RunEvent → Bool
  | RunEvent.dispatched i =>
    decide (prev = some (RunEvent.savedCheckpoint (dispatchCkpt i mi unc)))
  | _ => true

/-- Scan of a trace checking that every `dispatched id` event is immediately
preceded by the write of the dispatch checkpoint for `id`; `prev` is the event
before the scanned suffix. -/
def dispatchPreceded (mi : Nat) (unc : List String) :
    Option RunEvent → List RunEvent → Bool
  | _, [] => true
  | prev, e :: rest =>
    eventOk mi unc prev e && dispatchPreceded mi unc (some e) rest

/-- Last event of a trace segment, falling back to the event before it. -/
def lastOr (prev : Option RunEvent) : List RunEvent → Option RunEvent
  | [] => prev
  | e :: rest => lastOr (some e) rest

/-- Modelled from the spec: the Checkpoint Store (src/checkpoint.rs, absent
from the provided sources) is a durable single-slot register per working
directory; absence of the record means no checkpoint. -/
def CheckpointStore : Type := Option Checkpoint

/-- Modelled from the spec: `save(checkpoint)` persists the given checkpoint,
replacing any prior one. -/
def CheckpointStore.save (c : Checkpoint) (_s : CheckpointStore) : CheckpointStore :=
  some c

/-- Modelled from the spec: `load()` returns the current checkpoint if one
exists, or none. -/
def CheckpointStore.load (s : CheckpointStore) : Option Checkpoint :=
  s

/-- Modelled from the spec: `clear()` removes the checkpoint, idempotently
succeeding if none exists. -/
def CheckpointStore.clear (_s : CheckpointStore) : CheckpointStore :=
  none

/-- `ParallelRunnerConfig` of src/parallel/scheduler.rs. -/
structure ParallelRunnerConfig where
  max_concurrency : Nat
  infer_dependencies : Bool
  fallback_to_sequential : Bool
deriving Repr, DecidableEq

/-- `ParallelExecutionState` of src/parallel/scheduler.rs.  The Rust
`HashSet String` fields are modelled as duplicate-free lists, the
`HashMap` fields as association lists, and `PathBuf` as `String`. -/
structure ParallelExecutionState where
  in_flight : List String
  completed : List String
  failed : List (String × String)
  locked_files : List (String × String)
deriving Repr, DecidableEq

/-- The parallel scheduler state together with the resource footprint each
in-flight story acquired at admission (instrumentation recording the
`resources` argument of each successful `try_acquire`). -/
structure PState where
  state : ParallelExecutionState
  footprints : List (String × List String)
deriving Repr, DecidableEq

/-- The empty initial parallel state (`ParallelExecutionState::default()` in
`ParallelRunner::new`, src/parallel/scheduler.rs line 76). -/
def PState.empty : PState :=
  ⟨⟨[], [], [], []⟩, []⟩

/-- Modelled from the spec: one transition of the parallel scheduler
(`ParallelRunner::run` and the Conflict Resolver protocol are absent from the
provided sources).  Admission requires the story to be new, the concurrency
bound `max_concurrency` to have room, and the whole resource footprint to be
free, and then atomically moves the story into `in_flight` while locking every
one of its resource paths; completion and failure move the story out of
`in_flight` and release exactly its locks. -/
inductive PStep (cfg : ParallelRunnerConfig) : PState → PState → Prop
  | acquire (s : PState) (id : String) (rs : List String)
      (hnodup : rs.Nodup)
      (hflight : id ∉ s.state.in_flight)
      (hdone : ∀ q ∈ s.state.completed, q ≠ id)
      (hfailed : ∀ q ∈ s.state.failed, q.1 ≠ id)
      (hcap : s.state.in_flight.length < cfg.max_concurrency)
      (hfree : ∀ r ∈ rs, ∀ q ∈ s.state.locked_files, q.1 ≠ r) :
      PStep cfg s ⟨⟨id :: s.state.in_flight, s.state.completed, s.state.failed,
        rs.map (fun r => (r, id)) ++ s.state.locked_files⟩,
        (id, rs) :: s.footprints⟩
  | complete (s : PState) (id : String)
      (hin : id ∈ s.state.in_flight) :
      PStep cfg s ⟨⟨s.state.in_flight.filter (fun j => j ≠ id),
        id :: s.state.completed, s.state.failed,
        s.state.locked_files.filter (fun q => q.2 ≠ id)⟩,
        s.footprints.filter (fun pr => pr.1 ≠ id)⟩
  | fail (s : PState) (id : String) (msg : String)
      (hin : id ∈ s.state.in_flight) :
      PStep cfg s ⟨⟨s.state.in_flight.filter (fun j => j ≠ id),
        s.state.completed, (id, msg) :: s.state.failed,
        s.state.locked_files.filter (fun q => q.2 ≠ id)⟩,
        s.footprints.filter (fun pr => pr.1 ≠ id)⟩

/-- States of the parallel scheduler reachable from the empty initial state
under the admission/completion protocol. -/
inductive Reachable (cfg : ParallelRunnerConfig) : PState → Prop
  | init : Reachable cfg PState.empty
  | step {s t : PState} : Reachable cfg s → PStep cfg s t → Reachable cfg t

/-- The inductive invariant of the parallel scheduler state: in-flight ids are
distinct and are exactly the footprint owners, footprints are pairwise
disjoint, each locked path is locked once, and locks and footprints record
each other. -/
def PInv (p : PState) : Prop :=
  p.state.in_flight.Nodup ∧
  p.footprints.map Prod.fst = p.state.in_flight ∧
  p.footprints.Pairwise (fun a b => ∀ r ∈ a.2, r ∉ b.2) ∧
  (p.state.locked_files.map Prod.fst).Nodup ∧
  (∀ pr ∈ p.footprints, ∀ r ∈ pr.2, (r, pr.1) ∈ p.state.locked_files) ∧
  (∀ q ∈ p.state.locked_files, ∃ pr ∈ p.footprints, pr.1 = q.2 ∧ q.1 ∈ pr.2)

/- Concrete inputs used by witnesses and counterexamples. -/

/-- Demo story A: priority 1, not passing. -/
def demoA : PrdUserStory := ⟨"A", "story A", 1, false⟩

/-- Demo story B: priority 2, not passing. -/
def demoB : PrdUserStory := ⟨"B", "story B", 2, false⟩

/-- Demo story A, passing. -/
def demoAp : PrdUserStory := ⟨"A", "story A", 1, true⟩

/-- Demo story B, passing. -/
def demoBp : PrdUserStory := ⟨"B", "story B", 2, true⟩

/-- A successful executor outcome using one iteration. -/
def okOutcome : StepOutcome := StepOutcome.ok ⟨true, 1, none, none⟩

/-- Demo config: per-story max 10, no global cap, explicit agent, checkpointing
on. -/
def demoCfg : RunnerConfig := ⟨10, 0, some "agent", false⟩

/-- Demo config with global iteration cap 1. -/
def demoCfgCap : RunnerConfig := ⟨10, 1, some "agent", false⟩

/-- Demo script: running A makes A pass, then running B makes B pass. -/
def demoScript : List ExecStep :=
  [⟨okOutcome, [demoAp, demoB]⟩, ⟨okOutcome, [demoAp, demoBp]⟩]

/-- A pre-existing checkpoint on disk. -/
def demoCk0 : Checkpoint := ⟨some ⟨"X", 1, 10⟩, PauseReason.timeout, []⟩

/-- Demo parallel config with concurrency limit 2. -/
def demoPCfg : ParallelRunnerConfig := ⟨2, true, true⟩

/-- Parallel state after admitting story A holding file f1. -/
def demoP1 : PState :=
  ⟨⟨["A"], [], [], [("f1", "A")]⟩, [("A", ["f1"])]⟩

/-- Parallel state after further admitting story B holding file f2. -/
def demoP2 : PState :=
  ⟨⟨["B", "A"], [], [], [("f2", "B"), ("f1", "A")]⟩,
    [("B", ["f2"]), ("A", ["f1"])]⟩

/-- An executor step reporting a ran-but-failed story (3 iterations used). -/
def demoFailStep : ExecStep :=
  ⟨StepOutcome.ok ⟨false, 3, none, some "tests failed"⟩, [demoA, demoB]⟩

/-- An executor step reporting a timeout error. -/
def demoErrStep : ExecStep :=
  ⟨StepOutcome.err (ExecutorError.timeout "story timed out"), [demoA, demoB]⟩

/-- Demo config with checkpointing disabled. -/
def demoCfgNoCk : RunnerConfig := ⟨10, 0, some "agent", true⟩

/-- The final sequential state of the two-story demo run under `demoCfg`. -/
def demoFinal : SeqState :=
  ⟨2, none,
    [RunEvent.savedCheckpoint ⟨some ⟨"A", 1, 10⟩, PauseReason.userRequested, []⟩,
     RunEvent.dispatched "A",
     RunEvent.clearedCheckpoint,
     RunEvent.storyCompleted "A",
     RunEvent.savedCheckpoint ⟨some ⟨"B", 1, 10⟩, PauseReason.userRequested, []⟩,
     RunEvent.dispatched "B",
     RunEvent.clearedCheckpoint,
     RunEvent.storyCompleted "B",
     RunEvent.clearedCheckpoint],
    [1, 1]⟩

/-! Shared helper lemmas. -/

theorem save_checkpoint_total (b : Bool) (unc : List String) (i : String)
    (it mx : Nat) (pr : PauseReason) (st : SeqState) :
    (save_checkpoint b unc i it mx pr st).total_iterations = st.total_iterations := by
  unfold save_checkpoint
  split <;> rfl

theorem clear_checkpoint_total (b : Bool) (st : SeqState) :
    (clear_checkpoint b st).total_iterations = st.total_iterations := by
  unfold clear_checkpoint
  split <;> rfl

theorem countPassing_eq_length (prd : List PrdUserStory)
    (h : ∀ s ∈ prd, s.passes = true) : countPassing prd = prd.length := by
  unfold countPassing
  rw [List.filter_eq_self.mpr]
  intro a ha
  exact h a ha

theorem minByKeyFirst_eq_none {α : Type} {f : α → Nat} {l : List α}
    (h : minByKeyFirst f l = none) : l = [] := by
  cases l with
  | nil => rfl
  | cons a as =>
    exfalso
    rw [minByKeyFirst] at h
    cases hm : minByKeyFirst f as with
    | none =>
      rw [hm] at h
      exact Option.noConfusion h
    | some y =>
      rw [hm] at h
      have h2 : (if f a ≤ f y then some a else some y) = none := h
      by_cases hle : f a ≤ f y
      · rw [if_pos hle] at h2; exact Option.noConfusion h2
      · rw [if_neg hle] at h2; exact Option.noConfusion h2

theorem minByKeyFirst_spec {α : Type} (f : α → Nat) (l : List α) :
    ∀ x, minByKeyFirst f l = some x →
      ∃ l1 l2, l = l1 ++ x :: l2 ∧ (∀ y ∈ l1, f x < f y) ∧ (∀ y ∈ l2, f x ≤ f y) := by
  induction l with
  | nil => intro x h; rw [minByKeyFirst] at h; cases h
  | cons a as ih =>
    intro x h
    rw [minByKeyFirst] at h
    cases hm : minByKeyFirst f as with
    | none =>
      rw [hm] at h
      have hx : a = x := Option.some.inj h
      have hnil : as = [] := minByKeyFirst_eq_none hm
      subst hx; subst hnil
      exact ⟨[], [], rfl, by simp, by simp⟩
    | some y =>
      rw [hm] at h
      have h2 : (if f a ≤ f y then some a else some y) = some x := h
      obtain ⟨m1, m2, heq, h1, hrest⟩ := ih y hm
      by_cases hle : f a ≤ f y
      · rw [if_pos hle] at h2
        have hx : a = x := Option.some.inj h2
        subst hx
        refine ⟨[], as, rfl, by simp, ?_⟩
        intro z hz
        rw [heq] at hz
        rcases List.mem_append.mp hz with hz1 | hz2
        · exact le_of_lt (lt_of_le_of_lt hle (h1 z hz1))
        · rcases List.mem_cons.mp hz2 with rfl | hz3
          · exact hle
          · exact le_trans hle (hrest z hz3)
      · rw [if_neg hle] at h2
        have hx : y = x := Option.some.inj h2
        subst hx
        have hlt : f y < f a := Nat.not_le.mp hle
        refine ⟨a :: m1, m2, by simp [heq], ?_, hrest⟩
        intro z hz
        rcases List.mem_cons.mp hz with rfl | hz1
        · exact hlt
        · exact h1 z hz1

theorem map_fst_filter_ne {α : Type} (id : String) (l : List (String × α)) :
    (l.filter (fun pr => pr.1 ≠ id)).map Prod.fst =
      (l.map Prod.fst).filter (fun j => j ≠ id) := by
  induction l with
  | nil => rfl
  | cons a t ih =>
    by_cases h : a.1 = id <;> simp [List.filter_cons, h] <;> simpa using ih

/-! Claim C8: checkpoint store round-trip. -/

/-- C8: for every checkpoint c, `save c` then `load` returns a checkpoint equal
to c; `clear` then `load` returns none; and `clear` succeeds idempotently when
no checkpoint exists (clearing an empty store leaves it empty, and clearing is
idempotent). -/
theorem checkpoint_store_roundtrip (c : Checkpoint) (s : CheckpointStore) :
    (CheckpointStore.save c s).load = some c ∧
    (CheckpointStore.clear s).load = none ∧
    CheckpointStore.clear (CheckpointStore.clear s) = CheckpointStore.clear s ∧
    CheckpointStore.clear (none : CheckpointStore) = none := by
  exact ⟨rfl, rfl, rfl, rfl⟩

/-! Claim C3: all-items-passing termination. -/

/-- C3 counterexample: with every story already passing and a checkpoint
`demoCk0` on disk, the sequential runner returns Done immediately but leaves
the existing checkpoint in place — the final slot is still `some demoCk0`, not
cleared — refuting the claim that any existing checkpoint is cleared. -/
theorem all_passing_keeps_existing_checkpoint :
    run_sequential demoCfg true none [] [demoAp] [] (some demoCk0) =
      some (⟨true, 1, 1, 0, none⟩, ⟨0, some demoCk0, [], []⟩) ∧
    (some demoCk0 ≠ (none : Option Checkpoint)) := by
  exact ⟨rfl, by simp⟩

/-- C3 (amended): for every work-item set in which every item already has
passes = true, the sequential scheduler terminates immediately in the Done
state with all_passed = true, items_passed = total_items and
total_iterations = 0, writes no checkpoint, and leaves any existing checkpoint
untouched (the early all-passing return does not clear the slot). -/
theorem all_passing_immediate_done (cfg : RunnerConfig) (hm : Bool)
    (agent : Option String) (unc : List String) (prd0 : List PrdUserStory)
    (script : List ExecStep) (slot0 : Option Checkpoint)
    (h : ∀ s ∈ prd0, s.passes = true) :
    run_sequential cfg hm agent unc prd0 script slot0 =
      some (⟨true, prd0.length, prd0.length, 0, none⟩, ⟨0, slot0, [], []⟩) := by
  have hcount : countPassing prd0 = prd0.length := countPassing_eq_length prd0 h
  unfold run_sequential
  rw [if_pos hcount]

/-- C3 amended witness at a concrete two-story all-passing set with an empty
slot. -/
theorem all_passing_immediate_done_witness :
    run_sequential demoCfg true none [] [demoAp, demoBp] [] none =
      some (⟨true, 2, 2, 0, none⟩, ⟨0, none, [], []⟩) :=
  all_passing_immediate_done demoCfg true none [] [demoAp, demoBp] [] none
    (by decide)

/-! Claim C4: global iteration cap exhaustion. -/

/-- C4 counterexample: with global cap 1, after one successful story attempt
the run halts Blocked, and the checkpoint written carries the generic error
pause reason with the cap message — not the dedicated iteration-limit tag of
the pause-reason taxonomy — refuting the claim that the checkpoint is tagged
with an iteration-limit pause reason. -/
theorem cap_checkpoint_not_iteration_limit_tag :
    (run_sequential demoCfgCap true none [] [demoA, demoB] demoScript none).map
        (fun p => (p.1, p.2.slot)) =
      some (⟨false, 1, 2, 1, some (maxTotalMsg 1)⟩,
        some ⟨some ⟨"B", 1, 10⟩, PauseReason.error (maxTotalMsg 1), []⟩) ∧
    PauseReason.error (maxTotalMsg 1) ≠ PauseReason.iterationLimit := by
  exact ⟨rfl, by simp⟩

/-- C4 (amended): whenever the global cap is non-zero and the running total
has reached or exceeded it while an unfinished item remains, the sequential
scheduler halts in the Blocked terminal state — all_passed = false with an
error message, distinguishable from Done — and writes a checkpoint whose pause
reason is the generic error reason carrying the text
"Max total iterations (N) reached" (not a dedicated iteration-limit tag). -/
theorem cap_exhausted_blocks (cfg : RunnerConfig) (unc : List String) (ts : Nat)
    (script : List ExecStep) (prd : List PrdUserStory) (st : SeqState)
    (story : PrdUserStory)
    (hfind : find_next_story prd = some story)
    (hcap : cfg.max_total_iterations > 0)
    (hexh : st.total_iterations ≥ cfg.max_total_iterations) :
    runLoop cfg true unc ts script prd st =
      some (⟨false, countPassing prd, ts, st.total_iterations,
        some (maxTotalMsg cfg.max_total_iterations)⟩,
        { st with
          slot := some ⟨some ⟨story.id, 1, cfg.max_iterations_per_story⟩,
            PauseReason.error (maxTotalMsg cfg.max_total_iterations), unc⟩
          events := st.events ++ [RunEvent.savedCheckpoint
            ⟨some ⟨story.id, 1, cfg.max_iterations_per_story⟩,
             PauseReason.error (maxTotalMsg cfg.max_total_iterations), unc⟩] }) := by
  rw [runLoop, hfind]
  split
  next h => exact Option.noConfusion h
  next s h =>
    have hs : story = s := Option.some.inj h
    subst hs
    rw [if_pos ⟨hcap, hexh⟩]
    rfl

/-- C4 amended witness at a concrete state with total 1 against cap 1. -/
theorem cap_exhausted_blocks_witness :
    runLoop demoCfgCap true [] 2 [] [demoA, demoB] ⟨1, none, [], [1]⟩ =
      some (⟨false, countPassing [demoA, demoB], 2, 1, some (maxTotalMsg 1)⟩,
        ⟨1, some ⟨some ⟨"A", 1, 10⟩, PauseReason.error (maxTotalMsg 1), []⟩,
         [RunEvent.savedCheckpoint
           ⟨some ⟨"A", 1, 10⟩, PauseReason.error (maxTotalMsg 1), []⟩], [1]⟩) :=
  cap_exhausted_blocks demoCfgCap [] 2 [] [demoA, demoB] ⟨1, none, [], [1]⟩
    demoA (by decide) (by decide) (by decide)

/-! Shared unfolding and frame lemmas for the sequential loop. -/

theorem save_checkpoint_increments (b : Bool) (unc : List String) (i : String)
    (it mx : Nat) (pr : PauseReason) (st : SeqState) :
    (save_checkpoint b unc i it mx pr st).increments = st.increments := by
  unfold save_checkpoint
  split <;> rfl

theorem clear_checkpoint_increments (b : Bool) (st : SeqState) :
    (clear_checkpoint b st).increments = st.increments := by
  unfold clear_checkpoint
  split <;> rfl

theorem save_checkpoint_false (unc : List String) (i : String) (it mx : Nat)
    (pr : PauseReason) (st : SeqState) :
    save_checkpoint false unc i it mx pr st = st := rfl

theorem clear_checkpoint_false (st : SeqState) :
    clear_checkpoint false st = st := rfl

theorem runLoop_done (cfg : RunnerConfig) (hm : Bool) (unc : List String)
    (ts : Nat) (script : List ExecStep) (prd : List PrdUserStory) (st : SeqState)
    (h : find_next_story prd = none) :
    runLoop cfg hm unc ts script prd st =
      some (⟨true, ts, ts, (clear_checkpoint hm st).total_iterations, none⟩,
        clear_checkpoint hm st) := by
  rw [runLoop, h]

theorem runLoop_blocked (cfg : RunnerConfig) (hm : Bool) (unc : List String)
    (ts : Nat) (script : List ExecStep) (prd : List PrdUserStory) (st : SeqState)
    (story : PrdUserStory)
    (hfind : find_next_story prd = some story)
    (hcap : cfg.max_total_iterations > 0 ∧ st.total_iterations ≥ cfg.max_total_iterations) :
    runLoop cfg hm unc ts script prd st =
      some (⟨false, countPassing prd, ts,
        (save_checkpoint hm unc story.id 1 cfg.max_iterations_per_story
          (PauseReason.error (maxTotalMsg cfg.max_total_iterations)) st).total_iterations,
        some (maxTotalMsg cfg.max_total_iterations)⟩,
        save_checkpoint hm unc story.id 1 cfg.max_iterations_per_story
          (PauseReason.error (maxTotalMsg cfg.max_total_iterations)) st) := by
  rw [runLoop, hfind]
  split
  next h => exact Option.noConfusion h
  next s h =>
    have hs : story = s := Option.some.inj h
    subst hs
    rw [if_pos hcap]

theorem runLoop_cons (cfg : RunnerConfig) (hm : Bool) (unc : List String)
    (ts : Nat) (step : ExecStep) (rest : List ExecStep) (prd : List PrdUserStory)
    (st : SeqState) (story : PrdUserStory)
    (hfind : find_next_story prd = some story)
    (hcap : ¬(cfg.max_total_iterations > 0 ∧ st.total_iterations ≥ cfg.max_total_iterations)) :
    runLoop cfg hm unc ts (step :: rest) prd st =
      runLoop cfg hm unc ts rest step.nextPrd (dispatchState cfg hm unc story step st) := by
  rw [runLoop, hfind]
  split
  next h => exact Option.noConfusion h
  next s h =>
    have hs : story = s := Option.some.inj h
    subst hs
    rw [if_neg hcap]

theorem runLoop_nil (cfg : RunnerConfig) (hm : Bool) (unc : List String)
    (ts : Nat) (prd : List PrdUserStory) (st : SeqState) (story : PrdUserStory)
    (hfind : find_next_story prd = some story)
    (hcap : ¬(cfg.max_total_iterations > 0 ∧ st.total_iterations ≥ cfg.max_total_iterations)) :
    runLoop cfg hm unc ts [] prd st = none := by
  rw [runLoop, hfind]
  split
  next h => exact Option.noConfusion h
  next s h =>
    have hs : story = s := Option.some.inj h
    subst hs
    rw [if_neg hcap]

theorem dispatchState_total (cfg : RunnerConfig) (hm : Bool) (unc : List String)
    (story : PrdUserStory) (step : ExecStep) (st : SeqState) :
    (dispatchState cfg hm unc story step st).total_iterations =
      st.total_iterations + stepWeight step := by
  rcases step with ⟨outc, nxt⟩
  cases outc with
  | ok r =>
    by_cases hs : r.success = true
    · simp [dispatchState, hs, clear_checkpoint_total, save_checkpoint_total]
    · simp [dispatchState, hs, clear_checkpoint_total, save_checkpoint_total]
  | err e =>
    simp [dispatchState, clear_checkpoint_total, save_checkpoint_total]

theorem dispatchState_increments (cfg : RunnerConfig) (hm : Bool) (unc : List String)
    (story : PrdUserStory) (step : ExecStep) (st : SeqState) :
    (dispatchState cfg hm unc story step st).increments =
      st.increments ++ [stepWeight step] := by
  rcases step with ⟨outc, nxt⟩
  cases outc with
  | ok r =>
    by_cases hs : r.success = true
    · simp [dispatchState, hs, clear_checkpoint_increments, save_checkpoint_increments]
    · simp [dispatchState, hs, clear_checkpoint_increments, save_checkpoint_increments]
  | err e =>
    simp [dispatchState, clear_checkpoint_increments, save_checkpoint_increments]

theorem dispatchState_false_slot (cfg : RunnerConfig) (unc : List String)
    (story : PrdUserStory) (step : ExecStep) (st : SeqState) :
    (dispatchState cfg false unc story step st).slot = st.slot := by
  rcases step with ⟨outc, nxt⟩
  cases outc with
  | ok r =>
    by_cases hs : r.success = true
    · simp [dispatchState, hs, clear_checkpoint_false, save_checkpoint_false]
    · simp [dispatchState, hs, clear_checkpoint_false, save_checkpoint_false]
  | err e =>
    simp [dispatchState, clear_checkpoint_false, save_checkpoint_false]

theorem dispatchState_false_filter (cfg : RunnerConfig) (unc : List String)
    (story : PrdUserStory) (step : ExecStep) (st : SeqState) :
    (dispatchState cfg false unc story step st).events.filter isCkptEvent =
      st.events.filter isCkptEvent := by
  rcases step with ⟨outc, nxt⟩
  cases outc with
  | ok r =>
    by_cases hs : r.success = true
    · simp [dispatchState, hs, clear_checkpoint_false, save_checkpoint_false,
        List.filter_append, isCkptEvent]
    · simp [dispatchState, hs, clear_checkpoint_false, save_checkpoint_false,
        List.filter_append, isCkptEvent]
  | err e =>
    simp [dispatchState, clear_checkpoint_false, save_checkpoint_false,
      List.filter_append, isCkptEvent]

theorem dispatchState_true_events (cfg : RunnerConfig) (unc : List String)
    (story : PrdUserStory) (step : ExecStep) (st : SeqState) :
    ∃ tail : List RunEvent,
      (dispatchState cfg true unc story step st).events =
        st.events ++
          (RunEvent.savedCheckpoint
              (dispatchCkpt story.id cfg.max_iterations_per_story unc) ::
            RunEvent.dispatched story.id :: tail) ∧
      ∀ e ∈ tail, ∀ i, e ≠ RunEvent.dispatched i := by
  rcases step with ⟨outc, nxt⟩
  cases outc with
  | ok r =>
    by_cases hs : r.success = true
    · refine ⟨[RunEvent.clearedCheckpoint, RunEvent.storyCompleted story.id], ?_, ?_⟩
      · simp [dispatchState, hs, clear_checkpoint, save_checkpoint, dispatchCkpt]
      · intro e he i
        rcases List.mem_cons.mp he with rfl | he2
        · simp
        · rcases List.mem_cons.mp he2 with rfl | he3
          · simp
          · cases he3
    · refine ⟨[RunEvent.savedCheckpoint
          ⟨some ⟨story.id, r.iterations_used, cfg.max_iterations_per_story⟩,
           PauseReason.error (r.error.getD "Quality gates failed"), unc⟩,
         RunEvent.storyFailed story.id (r.error.getD "Quality gates failed")], ?_, ?_⟩
      · simp [dispatchState, hs, clear_checkpoint, save_checkpoint, dispatchCkpt]
      · intro e he i
        rcases List.mem_cons.mp he with rfl | he2
        · simp
        · rcases List.mem_cons.mp he2 with rfl | he3
          · simp
          · cases he3
  | err e =>
    refine ⟨[RunEvent.savedCheckpoint
        ⟨some ⟨story.id, 1, cfg.max_iterations_per_story⟩,
         error_to_pause_reason e, unc⟩,
       RunEvent.storyFailed story.id e.toMessage], ?_, ?_⟩
    · simp [dispatchState, clear_checkpoint, save_checkpoint, dispatchCkpt]
    · intro x hx i
      rcases List.mem_cons.mp hx with rfl | hx2
      · simp
      · rcases List.mem_cons.mp hx2 with rfl | hx3
        · simp
        · cases hx3

theorem dispatchPreceded_no_dispatch (mi : Nat) (unc : List String)
    (l : List RunEvent) (h : ∀ e ∈ l, ∀ i, e ≠ RunEvent.dispatched i) :
    ∀ prev, dispatchPreceded mi unc prev l = true := by
  induction l with
  | nil => intro prev; rfl
  | cons e rest ih =>
    intro prev
    have h1 : ∀ x ∈ rest, ∀ i, x ≠ RunEvent.dispatched i :=
      fun x hx => h x (List.mem_cons_of_mem _ hx)
    have he : eventOk mi unc prev e = true := by
      cases e with
      | dispatched i => exact absurd rfl (h _ (List.mem_cons_self _ _) i)
      | savedCheckpoint c => rfl
      | clearedCheckpoint => rfl
      | storyCompleted i => rfl
      | storyFailed i m => rfl
    rw [dispatchPreceded, he, ih h1 (some e)]
    rfl

theorem dispatchPreceded_append (mi : Nat) (unc : List String)
    (xs ys : List RunEvent) :
    ∀ prev, dispatchPreceded mi unc prev (xs ++ ys) =
      (dispatchPreceded mi unc prev xs &&
        dispatchPreceded mi unc (lastOr prev xs) ys) := by
  induction xs with
  | nil => intro prev; simp [dispatchPreceded, lastOr]
  | cons e rest ih =>
    intro prev
    simp only [List.cons_append, List.append_eq, dispatchPreceded, lastOr,
      ih (some e), Bool.and_assoc]

theorem dispatchPreceded_block (mi : Nat) (unc : List String) (i : String)
    (tail : List RunEvent) (htail : ∀ e ∈ tail, ∀ j, e ≠ RunEvent.dispatched j) :
    ∀ prev, dispatchPreceded mi unc prev
      (RunEvent.savedCheckpoint (dispatchCkpt i mi unc) ::
        RunEvent.dispatched i :: tail) = true := by
  intro prev
  rw [dispatchPreceded, dispatchPreceded]
  simp [eventOk, dispatchPreceded_no_dispatch mi unc tail htail]

/-! Claim C2: priority-ordered selection. -/

/-- C2: in every selection round the chosen item is, among the items with
passes = false, one with the numerically lowest priority, and every
not-yet-passing item placed before it in source order has strictly greater
priority (first match wins on ties); and in the concrete two-item scenario
(A priority 1, B priority 2, both failing, global cap 0) the sequential
scheduler dispatches A before B, ends Done with items_passed = 2. -/
theorem next_story_selection :
    (∀ (prd : List PrdUserStory) (story : PrdUserStory),
      find_next_story prd = some story →
        story ∈ prd ∧ story.passes = false ∧
        (∀ t ∈ prd, t.passes = false → story.priority ≤ t.priority) ∧
        ∃ l1 l2, prd.filter (fun s => !s.passes) = l1 ++ story :: l2 ∧
          ∀ y ∈ l1, story.priority < y.priority) ∧
    (∃ stF : SeqState,
      run_sequential demoCfg true none [] [demoA, demoB] demoScript none =
        some (⟨true, 2, 2, 2, none⟩, stF) ∧
      dispatchedIds stF.events = ["A", "B"]) := by
  constructor
  · intro prd story h
    unfold find_next_story at h
    obtain ⟨l1, l2, heq, h1, h2⟩ :=
      minByKeyFirst_spec (fun s => s.priority) (prd.filter (fun s => !s.passes)) story h
    have hmem : story ∈ prd.filter (fun s => !s.passes) := by
      rw [heq]
      exact List.mem_append_right _ (List.mem_cons_self _ _)
    have hmem2 := List.mem_filter.mp hmem
    have hpass : story.passes = false := by
      have h3 := hmem2.2
      cases hp : story.passes
      · rfl
      · rw [hp] at h3; exact absurd h3 (by decide)
    refine ⟨hmem2.1, hpass, ?_, ⟨l1, l2, heq, h1⟩⟩
    intro t ht htf
    have htmem : t ∈ prd.filter (fun s => !s.passes) :=
      List.mem_filter.mpr ⟨ht, by rw [htf]; rfl⟩
    rw [heq] at htmem
    rcases List.mem_append.mp htmem with h3 | h4
    · exact le_of_lt (h1 t h3)
    · rcases List.mem_cons.mp h4 with rfl | h5
      · exact le_refl _
      · exact h2 t h5
  · exact ⟨demoFinal, rfl, rfl⟩

/-- C2 witness: the characterization applied to the concrete two-item set,
where A is selected. -/
theorem next_story_selection_witness :
    demoA ∈ [demoA, demoB] ∧ demoA.passes = false ∧
    (∀ t ∈ [demoA, demoB], t.passes = false → demoA.priority ≤ t.priority) ∧
    (∃ l1 l2, [demoA, demoB].filter (fun s => !s.passes) = l1 ++ demoA :: l2 ∧
      ∀ y ∈ l1, demoA.priority < y.priority) :=
  next_story_selection.1 [demoA, demoB] demoA (by decide)

/-! Claim C5: an item failure does not halt the run. -/

/-- C5: when the executor reports a ran-but-failed item, the scheduler
persists a checkpoint whose pause reason carries the failure detail, records
the failure for reporting, accounts the consumed iterations, and continues
the loop on the remaining script — a single item's failure does not halt the
run. -/
theorem item_failure_continues (cfg : RunnerConfig) (unc : List String)
    (ts : Nat) (prd : List PrdUserStory) (st : SeqState) (story : PrdUserStory)
    (step : ExecStep) (rest : List ExecStep) (r : ExecutionResult)
    (hfind : find_next_story prd = some story)
    (hcap : ¬(cfg.max_total_iterations > 0 ∧
      st.total_iterations ≥ cfg.max_total_iterations))
    (hout : step.outcome = StepOutcome.ok r)
    (hfail : r.success = false) :
    ∃ st4 : SeqState,
      runLoop cfg true unc ts (step :: rest) prd st =
        runLoop cfg true unc ts rest step.nextPrd st4 ∧
      st4.slot = some ⟨some ⟨story.id, r.iterations_used, cfg.max_iterations_per_story⟩,
        PauseReason.error (r.error.getD "Quality gates failed"), unc⟩ ∧
      st4.events = st.events ++
        [RunEvent.savedCheckpoint (dispatchCkpt story.id cfg.max_iterations_per_story unc),
         RunEvent.dispatched story.id,
         RunEvent.savedCheckpoint
           ⟨some ⟨story.id, r.iterations_used, cfg.max_iterations_per_story⟩,
            PauseReason.error (r.error.getD "Quality gates failed"), unc⟩,
         RunEvent.storyFailed story.id (r.error.getD "Quality gates failed")] ∧
      st4.total_iterations = st.total_iterations + r.iterations_used := by
  refine ⟨dispatchState cfg true unc story step st,
    runLoop_cons cfg true unc ts step rest prd st story hfind hcap, ?_, ?_, ?_⟩
  · rcases step with ⟨outc, nxt⟩
    cases hout
    simp [dispatchState, hfail, save_checkpoint, clear_checkpoint, dispatchCkpt]
  · rcases step with ⟨outc, nxt⟩
    cases hout
    simp [dispatchState, hfail, save_checkpoint, clear_checkpoint, dispatchCkpt]
  · rcases step with ⟨outc, nxt⟩
    cases hout
    simp [dispatchState, hfail, save_checkpoint, clear_checkpoint, stepWeight]

/-- C5 witness at a concrete failing step. -/
theorem item_failure_continues_witness :
    ∃ st4 : SeqState,
      runLoop demoCfg true [] 2 (demoFailStep :: []) [demoA, demoB]
          ⟨0, none, [], []⟩ =
        runLoop demoCfg true [] 2 [] demoFailStep.nextPrd st4 ∧
      st4.slot = some ⟨some ⟨"A", 3, 10⟩,
        PauseReason.error "tests failed", []⟩ ∧
      st4.events =
        [RunEvent.savedCheckpoint (dispatchCkpt "A" 10 []),
         RunEvent.dispatched "A",
         RunEvent.savedCheckpoint ⟨some ⟨"A", 3, 10⟩,
            PauseReason.error "tests failed", []⟩,
         RunEvent.storyFailed "A" "tests failed"] ∧
      st4.total_iterations = 0 + 3 :=
  item_failure_continues demoCfg [] 2 [demoA, demoB] ⟨0, none, [], []⟩ demoA
    demoFailStep [] ⟨false, 3, none, some "tests failed"⟩
    (by decide) (by decide) rfl rfl

/-! Claim C6: executor operational errors are classified. -/

/-- C6: an executor operational error is classified exactly by class — a
timeout maps to the timeout pause reason, a cancellation to the
user-requested pause reason, anything else to a generic error pause reason
carrying the error text — the classified reason is persisted in the
checkpoint, the iteration total grows by 1, and the run continues on the
remaining script rather than halting. -/
theorem executor_error_classified (cfg : RunnerConfig) (unc : List String)
    (ts : Nat) (prd : List PrdUserStory) (st : SeqState) (story : PrdUserStory)
    (step : ExecStep) (rest : List ExecStep) (e : ExecutorError)
    (hfind : find_next_story prd = some story)
    (hcap : ¬(cfg.max_total_iterations > 0 ∧
      st.total_iterations ≥ cfg.max_total_iterations))
    (hout : step.outcome = StepOutcome.err e) :
    (∀ m, error_to_pause_reason (ExecutorError.timeout m) = PauseReason.timeout) ∧
    error_to_pause_reason ExecutorError.cancelled = PauseReason.userRequested ∧
    (∀ m, error_to_pause_reason (ExecutorError.other m) = PauseReason.error m) ∧
    ∃ st4 : SeqState,
      runLoop cfg true unc ts (step :: rest) prd st =
        runLoop cfg true unc ts rest step.nextPrd st4 ∧
      st4.slot = some ⟨some ⟨story.id, 1, cfg.max_iterations_per_story⟩,
        error_to_pause_reason e, unc⟩ ∧
      st4.total_iterations = st.total_iterations + 1 := by
  refine ⟨fun m => rfl, rfl, fun m => rfl,
    dispatchState cfg true unc story step st,
    runLoop_cons cfg true unc ts step rest prd st story hfind hcap, ?_, ?_⟩
  · rcases step with ⟨outc, nxt⟩
    cases hout
    simp [dispatchState, save_checkpoint, clear_checkpoint]
  · rcases step with ⟨outc, nxt⟩
    cases hout
    simp [dispatchState, save_checkpoint, clear_checkpoint, stepWeight]

/-- C6 witness at a concrete timeout step. -/
theorem executor_error_classified_witness :
    (∀ m, error_to_pause_reason (ExecutorError.timeout m) = PauseReason.timeout) ∧
    error_to_pause_reason ExecutorError.cancelled = PauseReason.userRequested ∧
    (∀ m, error_to_pause_reason (ExecutorError.other m) = PauseReason.error m) ∧
    ∃ st4 : SeqState,
      runLoop demoCfg true [] 2 (demoErrStep :: []) [demoA, demoB]
          ⟨0, none, [], []⟩ =
        runLoop demoCfg true [] 2 [] demoErrStep.nextPrd st4 ∧
      st4.slot = some ⟨some ⟨"A", 1, 10⟩,
        error_to_pause_reason (ExecutorError.timeout "story timed out"), []⟩ ∧
      st4.total_iterations = 0 + 1 :=
  executor_error_classified demoCfg [] 2 [demoA, demoB] ⟨0, none, [], []⟩ demoA
    demoErrStep [] (ExecutorError.timeout "story timed out")
    (by decide) (by decide) rfl

theorem preceded_singleton (mi : Nat) (unc : List String) (e : RunEvent)
    (he : ∀ i, e ≠ RunEvent.dispatched i) :
    ∀ prev, dispatchPreceded mi unc prev [e] = true := by
  intro prev
  apply dispatchPreceded_no_dispatch
  intro x hx i
  rcases List.mem_cons.mp hx with rfl | h2
  · exact he i
  · cases h2

theorem runLoop_events_preceded (cfg : RunnerConfig) (unc : List String)
    (ts : Nat) :
    ∀ (script : List ExecStep) (prd : List PrdUserStory) (st : SeqState)
      (res : RunResult) (st2 : SeqState),
      runLoop cfg true unc ts script prd st = some (res, st2) →
      ∃ evs, st2.events = st.events ++ evs ∧
        ∀ prev, dispatchPreceded cfg.max_iterations_per_story unc prev evs = true := by
  intro script
  induction script with
  | nil =>
    intro prd st res st2 h
    cases hf : find_next_story prd with
    | none =>
      rw [runLoop_done cfg true unc ts [] prd st hf] at h
      injection h with h
      injection h with h1 h2
      subst h2
      exact ⟨[RunEvent.clearedCheckpoint], rfl,
        preceded_singleton _ _ _ (by intro i; simp)⟩
    | some story =>
      by_cases hc : cfg.max_total_iterations > 0 ∧
          st.total_iterations ≥ cfg.max_total_iterations
      · rw [runLoop_blocked cfg true unc ts [] prd st story hf hc] at h
        injection h with h
        injection h with h1 h2
        subst h2
        exact ⟨[RunEvent.savedCheckpoint
            ⟨some ⟨story.id, 1, cfg.max_iterations_per_story⟩,
             PauseReason.error (maxTotalMsg cfg.max_total_iterations), unc⟩], rfl,
          preceded_singleton _ _ _ (by intro i; simp)⟩
      · rw [runLoop_nil cfg true unc ts prd st story hf hc] at h
        exact Option.noConfusion h
  | cons step rest ih =>
    intro prd st res st2 h
    cases hf : find_next_story prd with
    | none =>
      rw [runLoop_done cfg true unc ts (step :: rest) prd st hf] at h
      injection h with h
      injection h with h1 h2
      subst h2
      exact ⟨[RunEvent.clearedCheckpoint], rfl,
        preceded_singleton _ _ _ (by intro i; simp)⟩
    | some story =>
      by_cases hc : cfg.max_total_iterations > 0 ∧
          st.total_iterations ≥ cfg.max_total_iterations
      · rw [runLoop_blocked cfg true unc ts (step :: rest) prd st story hf hc] at h
        injection h with h
        injection h with h1 h2
        subst h2
        exact ⟨[RunEvent.savedCheckpoint
            ⟨some ⟨story.id, 1, cfg.max_iterations_per_story⟩,
             PauseReason.error (maxTotalMsg cfg.max_total_iterations), unc⟩], rfl,
          preceded_singleton _ _ _ (by intro i; simp)⟩
      · rw [runLoop_cons cfg true unc ts step rest prd st story hf hc] at h
        obtain ⟨evs2, hev2, hpre2⟩ :=
          ih step.nextPrd (dispatchState cfg true unc story step st) res st2 h
        obtain ⟨tail, htail, htailnd⟩ := dispatchState_true_events cfg unc story step st
        refine ⟨(RunEvent.savedCheckpoint
            (dispatchCkpt story.id cfg.max_iterations_per_story unc) ::
            RunEvent.dispatched story.id :: tail) ++ evs2, ?_, ?_⟩
        · rw [hev2, htail, List.append_assoc]
        · intro prev
          rw [dispatchPreceded_append]
          rw [dispatchPreceded_block cfg.max_iterations_per_story unc story.id
            tail htailnd prev]
          rw [hpre2]
          rfl

theorem runLoop_total_spec (cfg : RunnerConfig) (hm : Bool) (unc : List String)
    (ts : Nat) :
    ∀ (script : List ExecStep) (prd : List PrdUserStory) (st : SeqState)
      (res : RunResult) (st2 : SeqState),
      runLoop cfg hm unc ts script prd st = some (res, st2) →
      ∃ n, st2.increments = st.increments ++ (script.take n).map stepWeight ∧
        st2.total_iterations =
          st.total_iterations + ((script.take n).map stepWeight).sum ∧
        res.total_iterations = st2.total_iterations := by
  intro script
  induction script with
  | nil =>
    intro prd st res st2 h
    cases hf : find_next_story prd with
    | none =>
      rw [runLoop_done cfg hm unc ts [] prd st hf] at h
      injection h with h
      injection h with h1 h2
      subst h2
      subst h1
      exact ⟨0, by simp [clear_checkpoint_increments],
        by simp [clear_checkpoint_total], rfl⟩
    | some story =>
      by_cases hc : cfg.max_total_iterations > 0 ∧
          st.total_iterations ≥ cfg.max_total_iterations
      · rw [runLoop_blocked cfg hm unc ts [] prd st story hf hc] at h
        injection h with h
        injection h with h1 h2
        subst h2
        subst h1
        exact ⟨0, by simp [save_checkpoint_increments],
          by simp [save_checkpoint_total], rfl⟩
      · rw [runLoop_nil cfg hm unc ts prd st story hf hc] at h
        exact Option.noConfusion h
  | cons step rest ih =>
    intro prd st res st2 h
    cases hf : find_next_story prd with
    | none =>
      rw [runLoop_done cfg hm unc ts (step :: rest) prd st hf] at h
      injection h with h
      injection h with h1 h2
      subst h2
      subst h1
      exact ⟨0, by simp [clear_checkpoint_increments],
        by simp [clear_checkpoint_total], rfl⟩
    | some story =>
      by_cases hc : cfg.max_total_iterations > 0 ∧
          st.total_iterations ≥ cfg.max_total_iterations
      · rw [runLoop_blocked cfg hm unc ts (step :: rest) prd st story hf hc] at h
        injection h with h
        injection h with h1 h2
        subst h2
        subst h1
        exact ⟨0, by simp [save_checkpoint_increments],
          by simp [save_checkpoint_total], rfl⟩
      · rw [runLoop_cons cfg hm unc ts step rest prd st story hf hc] at h
        obtain ⟨n, hinc, htot, hres⟩ :=
          ih step.nextPrd (dispatchState cfg hm unc story step st) res st2 h
        refine ⟨n + 1, ?_, ?_, hres⟩
        · rw [hinc, dispatchState_increments]
          simp [List.take_succ_cons, List.append_assoc]
        · rw [htot, dispatchState_total]
          simp [List.take_succ_cons, Nat.add_assoc]

theorem runLoop_fst_congr (cfg : RunnerConfig) (unc : List String) (ts : Nat)
    (hm hm2 : Bool) :
    ∀ (script : List ExecStep) (prd : List PrdUserStory) (st st2 : SeqState),
      st.total_iterations = st2.total_iterations →
      (runLoop cfg hm unc ts script prd st).map Prod.fst =
        (runLoop cfg hm2 unc ts script prd st2).map Prod.fst := by
  intro script
  induction script with
  | nil =>
    intro prd st st2 hts
    cases hf : find_next_story prd with
    | none =>
      rw [runLoop_done cfg hm unc ts [] prd st hf,
        runLoop_done cfg hm2 unc ts [] prd st2 hf]
      simp [clear_checkpoint_total, hts]
    | some story =>
      by_cases hc : cfg.max_total_iterations > 0 ∧
          st.total_iterations ≥ cfg.max_total_iterations
      · have hc2 : cfg.max_total_iterations > 0 ∧
            st2.total_iterations ≥ cfg.max_total_iterations :=
          ⟨hc.1, hts ▸ hc.2⟩
        rw [runLoop_blocked cfg hm unc ts [] prd st story hf hc,
          runLoop_blocked cfg hm2 unc ts [] prd st2 story hf hc2]
        simp [save_checkpoint_total, hts]
      · have hc2 : ¬(cfg.max_total_iterations > 0 ∧
            st2.total_iterations ≥ cfg.max_total_iterations) :=
          fun hx => hc ⟨hx.1, by rw [hts]; exact hx.2⟩
        rw [runLoop_nil cfg hm unc ts prd st story hf hc,
          runLoop_nil cfg hm2 unc ts prd st2 story hf hc2]
  | cons step rest ih =>
    intro prd st st2 hts
    cases hf : find_next_story prd with
    | none =>
      rw [runLoop_done cfg hm unc ts (step :: rest) prd st hf,
        runLoop_done cfg hm2 unc ts (step :: rest) prd st2 hf]
      simp [clear_checkpoint_total, hts]
    | some story =>
      by_cases hc : cfg.max_total_iterations > 0 ∧
          st.total_iterations ≥ cfg.max_total_iterations
      · have hc2 : cfg.max_total_iterations > 0 ∧
            st2.total_iterations ≥ cfg.max_total_iterations :=
          ⟨hc.1, hts ▸ hc.2⟩
        rw [runLoop_blocked cfg hm unc ts (step :: rest) prd st story hf hc,
          runLoop_blocked cfg hm2 unc ts (step :: rest) prd st2 story hf hc2]
        simp [save_checkpoint_total, hts]
      · have hc2 : ¬(cfg.max_total_iterations > 0 ∧
            st2.total_iterations ≥ cfg.max_total_iterations) :=
          fun hx => hc ⟨hx.1, by rw [hts]; exact hx.2⟩
        rw [runLoop_cons cfg hm unc ts step rest prd st story hf hc,
          runLoop_cons cfg hm2 unc ts step rest prd st2 story hf hc2]
        apply ih
        rw [dispatchState_total, dispatchState_total, hts]

theorem runLoop_false_frame (cfg : RunnerConfig) (unc : List String) (ts : Nat) :
    ∀ (script : List ExecStep) (prd : List PrdUserStory) (st : SeqState)
      (res : RunResult) (st2 : SeqState),
      runLoop cfg false unc ts script prd st = some (res, st2) →
      st2.slot = st.slot ∧
      st2.events.filter isCkptEvent = st.events.filter isCkptEvent := by
  intro script
  induction script with
  | nil =>
    intro prd st res st2 h
    cases hf : find_next_story prd with
    | none =>
      rw [runLoop_done cfg false unc ts [] prd st hf] at h
      injection h with h
      injection h with h1 h2
      subst h2
      exact ⟨rfl, rfl⟩
    | some story =>
      by_cases hc : cfg.max_total_iterations > 0 ∧
          st.total_iterations ≥ cfg.max_total_iterations
      · rw [runLoop_blocked cfg false unc ts [] prd st story hf hc] at h
        injection h with h
        injection h with h1 h2
        subst h2
        exact ⟨rfl, rfl⟩
      · rw [runLoop_nil cfg false unc ts prd st story hf hc] at h
        exact Option.noConfusion h
  | cons step rest ih =>
    intro prd st res st2 h
    cases hf : find_next_story prd with
    | none =>
      rw [runLoop_done cfg false unc ts (step :: rest) prd st hf] at h
      injection h with h
      injection h with h1 h2
      subst h2
      exact ⟨rfl, rfl⟩
    | some story =>
      by_cases hc : cfg.max_total_iterations > 0 ∧
          st.total_iterations ≥ cfg.max_total_iterations
      · rw [runLoop_blocked cfg false unc ts (step :: rest) prd st story hf hc] at h
        injection h with h
        injection h with h1 h2
        subst h2
        exact ⟨rfl, rfl⟩
      · rw [runLoop_cons cfg false unc ts step rest prd st story hf hc] at h
        obtain ⟨hs, he⟩ :=
          ih step.nextPrd (dispatchState cfg false unc story step st) res st2 h
        exact ⟨hs.trans (dispatchState_false_slot cfg unc story step st),
          he.trans (dispatchState_false_filter cfg unc story step st)⟩

/-! Claim C7: a checkpoint is written before every dispatch. -/

/-- C7: in every completed sequential run with checkpointing enabled, each
executor dispatch event in the trace is immediately preceded by the write of a
checkpoint recording exactly that item's identifier, iteration 1, the
configured per-item iteration maximum, and a user-requested pause reason. -/
theorem dispatch_preceded_by_checkpoint (cfg : RunnerConfig)
    (agent : Option String) (unc : List String) (prd : List PrdUserStory)
    (script : List ExecStep) (slot0 : Option Checkpoint) (res : RunResult)
    (st2 : SeqState)
    (h : run_sequential cfg true agent unc prd script slot0 = some (res, st2)) :
    dispatchPreceded cfg.max_iterations_per_story unc none st2.events = true := by
  simp only [run_sequential] at h
  by_cases hall : countPassing prd = prd.length
  · rw [if_pos hall] at h
    injection h with h
    injection h with h1 h2
    subst h2
    rfl
  · rw [if_neg hall] at h
    cases hag : cfg.agent_command.orElse (fun _ => agent) with
    | none =>
      rw [hag] at h
      have h3 : some ((⟨false, countPassing prd, prd.length, 0,
          some "No agent found. Install Claude Code CLI or Amp CLI."⟩ : RunResult),
          (⟨0, slot0, [], []⟩ : SeqState)) = some (res, st2) := h
      injection h3 with h3
      injection h3 with h1 h2
      subst h2
      rfl
    | some a =>
      rw [hag] at h
      have h3 : runLoop cfg true unc prd.length script prd ⟨0, slot0, [], []⟩ =
          some (res, st2) := h
      obtain ⟨evs, hev, hpre⟩ := runLoop_events_preceded cfg unc prd.length
        script prd ⟨0, slot0, [], []⟩ res st2 h3
      rw [hev]
      simpa using hpre none

/-- C7 witness: the trace of the concrete two-story run. -/
theorem dispatch_preceded_by_checkpoint_witness :
    dispatchPreceded demoCfg.max_iterations_per_story [] none
      demoFinal.events = true :=
  dispatch_preceded_by_checkpoint demoCfg none [] [demoA, demoB] demoScript none
    ⟨true, 2, 2, 2, none⟩ demoFinal rfl

/-! Claim C9: iteration accounting. -/

/-- C9: the running total grows by exactly the executor-reported
iterations_used when the executor returns a result and by exactly 1 on an
operational error (the per-invocation weight `stepWeight`), and the returned
RunResult's total_iterations equals the sum of the recorded per-invocation
increments, which are the weights of the consumed script prefix. -/
theorem total_iterations_accounting (cfg : RunnerConfig) (hm : Bool)
    (agent : Option String) (unc : List String) (prd : List PrdUserStory)
    (script : List ExecStep) (slot0 : Option Checkpoint) (res : RunResult)
    (st2 : SeqState)
    (h : run_sequential cfg hm agent unc prd script slot0 = some (res, st2)) :
    (∀ (step : ExecStep) (r : ExecutionResult),
      step.outcome = StepOutcome.ok r → stepWeight step = r.iterations_used) ∧
    (∀ (step : ExecStep) (e : ExecutorError),
      step.outcome = StepOutcome.err e → stepWeight step = 1) ∧
    ∃ n, st2.increments = (script.take n).map stepWeight ∧
      res.total_iterations = st2.increments.sum := by
  refine ⟨?_, ?_, ?_⟩
  · intro step r ho
    rcases step with ⟨o, nx⟩
    cases ho
    rfl
  · intro step e ho
    rcases step with ⟨o, nx⟩
    cases ho
    rfl
  · simp only [run_sequential] at h
    by_cases hall : countPassing prd = prd.length
    · rw [if_pos hall] at h
      injection h with h
      injection h with h1 h2
      subst h2
      subst h1
      exact ⟨0, rfl, rfl⟩
    · rw [if_neg hall] at h
      cases hag : cfg.agent_command.orElse (fun _ => agent) with
      | none =>
        rw [hag] at h
        have h3 : some ((⟨false, countPassing prd, prd.length, 0,
            some "No agent found. Install Claude Code CLI or Amp CLI."⟩ : RunResult),
            (⟨0, slot0, [], []⟩ : SeqState)) = some (res, st2) := h
        injection h3 with h3
        injection h3 with h1 h2
        subst h2
        subst h1
        exact ⟨0, rfl, rfl⟩
      | some a =>
        rw [hag] at h
        have h3 : runLoop cfg hm unc prd.length script prd ⟨0, slot0, [], []⟩ =
            some (res, st2) := h
        obtain ⟨n, hinc, htot, hres⟩ := runLoop_total_spec cfg hm unc prd.length
          script prd ⟨0, slot0, [], []⟩ res st2 h3
        refine ⟨n, by simpa using hinc, ?_⟩
        rw [hres, htot, hinc]
        simp

/-- C9 witness: accounting of the concrete two-story run. -/
theorem total_iterations_accounting_witness :
    (∀ (step : ExecStep) (r : ExecutionResult),
      step.outcome = StepOutcome.ok r → stepWeight step = r.iterations_used) ∧
    (∀ (step : ExecStep) (e : ExecutorError),
      step.outcome = StepOutcome.err e → stepWeight step = 1) ∧
    ∃ n, demoFinal.increments = (demoScript.take n).map stepWeight ∧
      (⟨true, 2, 2, 2, none⟩ : RunResult).total_iterations =
        demoFinal.increments.sum :=
  total_iterations_accounting demoCfg true none [] [demoA, demoB] demoScript
    none ⟨true, 2, 2, 2, none⟩ demoFinal rfl

/-! Claim C10: disabled checkpointing is a pure no-op. -/

/-- C10: with no_checkpoint set the runner is constructed without a checkpoint
manager; a run without a manager performs no checkpoint persistence — the
slot is left exactly as it was and the trace contains no checkpoint events —
while the run's result is identical to the same run with a manager. -/
theorem no_checkpoint_noop (cfg : RunnerConfig) (b : Bool)
    (agent : Option String) (unc : List String) (prd : List PrdUserStory)
    (script : List ExecStep) (slot0 : Option Checkpoint)
    (h : cfg.no_checkpoint = true) :
    runner_has_manager cfg b = false ∧
    (run_sequential cfg false agent unc prd script slot0).map Prod.fst =
      (run_sequential cfg true agent unc prd script slot0).map Prod.fst ∧
    (∀ res st2,
      run_sequential cfg false agent unc prd script slot0 = some (res, st2) →
      st2.slot = slot0 ∧ st2.events.filter isCkptEvent = []) := by
  refine ⟨by simp [runner_has_manager, h], ?_, ?_⟩
  · simp only [run_sequential]
    by_cases hall : countPassing prd = prd.length
    · rw [if_pos hall, if_pos hall]
    · rw [if_neg hall, if_neg hall]
      cases hag : cfg.agent_command.orElse (fun _ => agent) with
      | none => rfl
      | some a =>
        exact runLoop_fst_congr cfg unc prd.length false true script prd
          ⟨0, slot0, [], []⟩ ⟨0, slot0, [], []⟩ rfl
  · intro res st2 h2
    simp only [run_sequential] at h2
    by_cases hall : countPassing prd = prd.length
    · rw [if_pos hall] at h2
      injection h2 with h2
      injection h2 with h1 h3
      subst h3
      exact ⟨rfl, rfl⟩
    · rw [if_neg hall] at h2
      cases hag : cfg.agent_command.orElse (fun _ => agent) with
      | none =>
        rw [hag] at h2
        have h3 : some ((⟨false, countPassing prd, prd.length, 0,
            some "No agent found. Install Claude Code CLI or Amp CLI."⟩ : RunResult),
            (⟨0, slot0, [], []⟩ : SeqState)) = some (res, st2) := h2
        injection h3 with h3
        injection h3 with h1 h4
        subst h4
        exact ⟨rfl, rfl⟩
      | some a =>
        rw [hag] at h2
        have h3 : runLoop cfg false unc prd.length script prd ⟨0, slot0, [], []⟩ =
            some (res, st2) := h2
        obtain ⟨hs, he⟩ := runLoop_false_frame cfg unc prd.length script prd
          ⟨0, slot0, [], []⟩ res st2 h3
        exact ⟨hs, he⟩

/-- C10 witness: the concrete two-story run with checkpointing disabled. -/
theorem no_checkpoint_noop_witness :
    runner_has_manager demoCfgNoCk true = false ∧
    (run_sequential demoCfgNoCk false none [] [demoA, demoB] demoScript
        none).map Prod.fst =
      (run_sequential demoCfgNoCk true none [] [demoA, demoB] demoScript
        none).map Prod.fst ∧
    (∀ res st2,
      run_sequential demoCfgNoCk false none [] [demoA, demoB] demoScript none =
        some (res, st2) →
      st2.slot = none ∧ st2.events.filter isCkptEvent = []) :=
  no_checkpoint_noop demoCfgNoCk true none [] [demoA, demoB] demoScript none rfl

/-! Claim C1: no two in-flight items hold overlapping resource footprints. -/

theorem pinv_filter (s : PState) (id : String) (completed2 : List String)
    (failed2 : List (String × String)) (h : PInv s) :
    PInv ⟨⟨s.state.in_flight.filter (fun j => j ≠ id), completed2, failed2,
      s.state.locked_files.filter (fun q => q.2 ≠ id)⟩,
      s.footprints.filter (fun pr => pr.1 ≠ id)⟩ := by
  obtain ⟨h1, h2, h3, h4, h5, h6⟩ := h
  refine ⟨?_, ?_, ?_, ?_, ?_, ?_⟩
  · exact h1.filter _
  · rw [map_fst_filter_ne, h2]
  · exact h3.filter _
  · have hsub : ((s.state.locked_files.filter (fun q => q.2 ≠ id)).map Prod.fst).Sublist
        (s.state.locked_files.map Prod.fst) :=
      (List.filter_sublist _).map _
    exact h4.sublist hsub
  · intro pr hpr r hr
    have hpr2 := List.mem_filter.mp hpr
    have hne : pr.1 ≠ id := by simpa using hpr2.2
    have hin := h5 pr hpr2.1 r hr
    exact List.mem_filter.mpr ⟨hin, by simpa using hne⟩
  · intro q hq
    have hq2 := List.mem_filter.mp hq
    have hne : q.2 ≠ id := by simpa using hq2.2
    obtain ⟨pr, hpr, hpr1, hpr2⟩ := h6 q hq2.1
    exact ⟨pr, List.mem_filter.mpr ⟨hpr, by simp [hpr1, hne]⟩, hpr1, hpr2⟩

theorem pstep_inv {cfg : ParallelRunnerConfig} {s t : PState}
    (h : PInv s) (hstep : PStep cfg s t) : PInv t := by
  obtain ⟨h1, h2, h3, h4, h5, h6⟩ := h
  cases hstep with
  | acquire id rs hnodup hflight hdone hfailed hcap hfree =>
    refine ⟨?_, ?_, ?_, ?_, ?_, ?_⟩
    · exact List.nodup_cons.mpr ⟨hflight, h1⟩
    · simp [h2]
    · refine List.pairwise_cons.mpr ⟨?_, h3⟩
      intro b hb r hr hrb
      have hlock := h5 b hb r hrb
      exact hfree r hr (r, b.1) hlock rfl
    · have hmap : ((rs.map (fun r => (r, id))) ++ s.state.locked_files).map Prod.fst
          = rs ++ s.state.locked_files.map Prod.fst := by
        rw [List.map_append, List.map_map]
        rw [show rs.map (Prod.fst ∘ fun r => (r, id)) = rs from List.map_id' rs]
      rw [hmap]
      refine List.Nodup.append hnodup h4 ?_
      intro a ha hb2
      obtain ⟨q, hq, hq1⟩ := List.mem_map.mp hb2
      exact hfree a ha q hq (by rw [hq1])
    · intro pr hpr r hr
      rcases List.mem_cons.mp hpr with rfl | hpr2
      · exact List.mem_append_left _ (List.mem_map.mpr ⟨r, hr, rfl⟩)
      · exact List.mem_append_right _ (h5 pr hpr2 r hr)
    · intro q hq
      rcases List.mem_append.mp hq with hq1 | hq2
      · obtain ⟨r, hrmem, hrq⟩ := List.mem_map.mp hq1
        cases hrq
        exact ⟨(id, rs), List.mem_cons_self _ _, rfl, hrmem⟩
      · obtain ⟨pr, hpr, hpr1, hpr2⟩ := h6 q hq2
        exact ⟨pr, List.mem_cons_of_mem _ hpr, hpr1, hpr2⟩
  | complete id hin => exact pinv_filter s id _ _ ⟨h1, h2, h3, h4, h5, h6⟩
  | fail id msg hin => exact pinv_filter s id _ _ ⟨h1, h2, h3, h4, h5, h6⟩

/-- C1: in every reachable state of the parallel scheduler, the resource
footprints of two distinct in-flight items never overlap, each resource path
in locked_files is locked at most once and only by an in-flight item, and
every in-flight item holds locks on all of its resource paths (it was
dispatched only after atomically acquiring them). -/
theorem no_overlapping_in_flight (cfg : ParallelRunnerConfig) (s : PState)
    (h : Reachable cfg s) :
    (∀ a ∈ s.footprints, ∀ b ∈ s.footprints, a.1 ≠ b.1 →
      ∀ r ∈ a.2, r ∉ b.2) ∧
    (s.state.locked_files.map Prod.fst).Nodup ∧
    (∀ q ∈ s.state.locked_files, q.2 ∈ s.state.in_flight) ∧
    (∀ pr ∈ s.footprints, pr.1 ∈ s.state.in_flight ∧
      ∀ r ∈ pr.2, (r, pr.1) ∈ s.state.locked_files) := by
  have hinv : PInv s := by
    induction h with
    | init =>
      exact ⟨List.nodup_nil, rfl, List.Pairwise.nil, List.nodup_nil,
        by simp [PState.empty], by simp [PState.empty]⟩
    | step hr hs ih => exact pstep_inv ih hs
  obtain ⟨h1, h2, h3, h4, h5, h6⟩ := hinv
  refine ⟨?_, h4, ?_, ?_⟩
  · have hsym : Symmetric (fun a b : String × List String =>
        ∀ r ∈ a.2, r ∉ b.2) := by
      intro a b hab r hrb hra
      exact hab r hra hrb
    intro a ha b hb hne r hra hrb
    have hab : a ≠ b := fun he => hne (by rw [he])
    exact h3.forall hsym ha hb hab r hra hrb
  · intro q hq
    obtain ⟨pr, hpr, hpr1, hpr2⟩ := h6 q hq
    rw [← h2]
    exact List.mem_map.mpr ⟨pr, hpr, hpr1⟩
  · intro pr hpr
    exact ⟨by rw [← h2]; exact List.mem_map.mpr ⟨pr, hpr, rfl⟩, h5 pr hpr⟩

/-- C1 witness: the state after admitting A holding f1 and B holding f2 under
concurrency limit 2 is reachable, and the invariant holds there. -/
theorem no_overlapping_in_flight_witness :
    Reachable demoPCfg demoP2 ∧
    ((demoP2.state.locked_files.map Prod.fst).Nodup ∧
      ∀ q ∈ demoP2.state.locked_files, q.2 ∈ demoP2.state.in_flight) := by
  have hstep1 : PStep demoPCfg PState.empty demoP1 :=
    PStep.acquire PState.empty "A" ["f1"] (by decide) (by decide) (by decide)
      (by decide) (by decide) (by decide)
  have hstep2 : PStep demoPCfg demoP1 demoP2 :=
    PStep.acquire demoP1 "B" ["f2"] (by decide) (by decide) (by decide)
      (by decide) (by decide) (by decide)
  have hreach : Reachable demoPCfg demoP2 :=
    Reachable.step (Reachable.step Reachable.init hstep1) hstep2
  exact ⟨hreach, (no_overlapping_in_flight demoPCfg demoP2 hreach).2.1,
    (no_overlapping_in_flight demoPCfg demoP2 hreach).2.2.1⟩
